import Mathlib

/-!
Shallow embedding of the rule-evaluation and coalition-search core of the
Majority governing-body viewer (src/governing-body-viewer.js), together with
proofs of the specified properties.

JavaScript numbers are modelled as rationals; a metric value held by a group
is either such a number or some non-numeric value (`JsVal.other`).  Objects
are modelled as structures whose optional JS properties are `Option` fields,
and JS object property tables (the `metrics` mapping of a body and of a
group) are ordered association lists, matching `Object.entries` order.
-/

namespace Majority

/-- A JavaScript value stored in a group's metric table: a number (modelled as
a rational) or some non-numeric value. -/
inductive JsVal where
  | num (v : ℚ)
  | other
deriving DecidableEq, Repr

/-- Association-list lookup, modelling JS property access `obj[key]` on an
object whose entries are in declaration order. -/
def lookupAssoc {α : Type} : List (String × α) → String → Option α
  | [], _ => none
  | (k, v) :: rest, key => if k = key then some v else lookupAssoc rest key

/-- A metric definition of a body (`body.metrics[id]`): only the fields the
algorithmic core reads (`total`, `isDefault`); label/unit are presentational. -/
structure MetricDef where
  total : Option ℚ := none
  isDefault : Bool := false
deriving DecidableEq, Repr

/-- A group of the body: its id and its metric table (`group.metrics`).
An absent key means the group has no value for that metric. -/
structure Group where
  id : String
  metrics : List (String × JsVal) := []
deriving DecidableEq, Repr

/-- A threshold specification (`condition.threshold`); all JS properties are
optional. -/
structure ThresholdSpec where
  kind : Option String := none
  metric : Option String := none
  value : Option JsVal := none
  offset : Option JsVal := none
deriving DecidableEq, Repr

/-- A rule condition; `type` dispatches ("sum" / "countGroups" / anything). -/
structure Condition where
  type : Option String := none
  metric : Option String := none
  operator : Option String := none
  threshold : Option ThresholdSpec := none
  value : Option JsVal := none
deriving DecidableEq, Repr

/-- A rule: optional id and an ordered condition list (`rule.conditions || []`). -/
structure Rule where
  id : Option String := none
  conditions : List Condition := []
deriving DecidableEq, Repr

/-- A governing body: `body.metrics || {}`, `body.groups || []`,
`body.rules || []` (absent containers are modelled as empty ones). -/
structure Body where
  metrics : List (String × MetricDef) := []
  groups : List Group := []
  rules : List Rule := []
deriving DecidableEq, Repr

/-- JS `s || d` for an optional string: an absent or empty string is falsy and
falls back to the default. -/
def jsOrStr (s : Option String) (d : String) : String :=
  match s with
  | some v => if v = "" then d else v
  | none => d

/-- JS `a || b` where both are optional strings (used for
`threshold.metric || ctx.metricId`). -/
def jsOrStrOpt (a b : Option String) : Option String :=
  match a with
  | some v => if v = "" then b else some v
  | none => b

/-- JS `typeof x === "number" ? x : 0` on an optional stored value. -/
def jsNumOrZero : Option JsVal → ℚ
  | some (JsVal.num v) => v
  | _ => 0

/-- Source `sumMetric(groups, metricId)`: folds over the groups, adding the
value when it is a number and leaving the accumulator unchanged otherwise. -/
def sumMetric (groups : List Group) (metricId : String) : ℚ :=
  groups.foldl
    (fun sum g =>
      match lookupAssoc g.metrics metricId with
      | some (JsVal.num v) => sum + v
      | _ => sum)
    0

/-- `sumMetric` where the metric id comes from an optional JS property: an
absent metric id finds no value in any group, so the sum is 0. -/
def sumMetricO (groups : List Group) (metricId : Option String) : ℚ :=
  match metricId with
  | some k => sumMetric groups k
  | none => 0

/-- Source `getDefaultMetricId(metrics)`: `null` for an empty table, else the
first entry flagged `isDefault`, else the first entry. -/
def getDefaultMetricId (metrics : List (String × MetricDef)) : Option String :=
  match metrics with
  | [] => none
  | e :: rest =>
    match (e :: rest).find? (fun p => p.2.isDefault) with
    | some p => some p.1
    | none => some e.1

/-- Source `compareValues(operator, a, b)`: the seven recognised operators,
anything else compares `false`. -/
def compareValues (operator : String) (a b : ℚ) : Bool :=
  if operator = ">" then decide (a > b)
  else if operator = ">=" then decide (a ≥ b)
  else if operator = "<" then decide (a < b)
  else if operator = "<=" then decide (a ≤ b)
  else if operator = "==" then decide (a = b)
  else if operator = "=" then decide (a = b)
  else if operator = "!=" then decide (¬ a = b)
  else false

/-- Source `resolveThreshold(threshold, ctx)`: `kind` defaults to
`"absolute"`; non-numeric `value`/`offset` coerce to 0; `"fractionOfTotal"`
multiplies by the total of `threshold.metric || ctx.metricId` (the metric
definition's precomputed `total` when present, else the sum over all groups);
`"percentage"` and the final fall-through (any other kind) both return
`value + offset`. -/
def resolveThreshold (threshold : ThresholdSpec) (metrics : List (String × MetricDef))
    (groups : List Group) (metricId : Option String) : ℚ :=
  let kind := jsOrStr threshold.kind "absolute"
  let value := jsNumOrZero threshold.value
  let offset := jsNumOrZero threshold.offset
  if kind = "fractionOfTotal" then
    let mid := jsOrStrOpt threshold.metric metricId
    let d := (mid.bind (lookupAssoc metrics)).getD {}
    let total :=
      match d.total with
      | some t => t
      | none => sumMetricO groups mid
    value * total + offset
  else if kind = "percentage" then
    value + offset
  else
    value + offset

/-- Source `evaluateSumCondition(condition, ctx)`. -/
def evaluateSumCondition (cond : Condition) (body : Body) (coalitionGroups : List Group) :
    Bool :=
  let metricId := cond.metric
  let operator := jsOrStr cond.operator ">="
  let thresholdSpec := cond.threshold.getD {}
  let coalitionSum := sumMetricO coalitionGroups metricId
  let thresholdValue := resolveThreshold thresholdSpec body.metrics body.groups metricId
  compareValues operator coalitionSum thresholdValue

/-- Source `evaluateCountGroupsCondition(condition, ctx)`: compares the
coalition's cardinality against the literal value (`condition.value`, with
`null` defaulting to 0; a non-numeric literal is outside the numeric
embedding and coerces to 0 here). -/
def evaluateCountGroupsCondition (cond : Condition) (coalitionGroups : List Group) : Bool :=
  let operator := jsOrStr cond.operator ">="
  let value := jsNumOrZero cond.value
  compareValues operator (coalitionGroups.length : ℚ) value

/-- Source `evaluateCondition(condition, ctx)`: dispatch on `condition.type`,
returning `false` (after a console warning, which has no semantic effect) for
any unknown kind. -/
def evaluateCondition (cond : Condition) (body : Body) (coalitionGroups : List Group) :
    Bool :=
  if cond.type = some "sum" then evaluateSumCondition cond body coalitionGroups
  else if cond.type = some "countGroups" then
    evaluateCountGroupsCondition cond coalitionGroups
  else false

/-- Source `evaluateRules(body, coalitionGroups)`: one `{rule, satisfied}`
entry per rule, in declaration order, with `satisfied` the AND over the
rule's conditions (`conditions.every`). -/
def evaluateRules (body : Body) (coalitionGroups : List Group) : List (Rule × Bool) :=
  body.rules.map (fun rule =>
    (rule, rule.conditions.all (fun cond => evaluateCondition cond body coalitionGroups)))

/-- The search's raw per-group seat access
`(g.metrics && g.metrics[metricId]) || 0`: a numeric value is returned as is
(a numeric 0 is falsy, but `0 || 0` is still 0); an absent value coerces to
0.  A falsy non-numeric value also coerces to 0; a truthy non-numeric value
would leave numeric JS semantics altogether (string concatenation), so the
numeric embedding maps `JsVal.other` to 0 — faithful on the numeric-or-absent
data the search is specified over. -/
def rawSeat (g : Group) (metricId : String) : ℚ :=
  match lookupAssoc g.metrics metricId with
  | some (JsVal.num v) => v
  | _ => 0

/-- Sum of the raw seat values of a list of groups.  `suffixSum (remaining.drop i) m`
is exactly the source's precomputed `suffixMax[i]`. -/
def suffixSum (l : List Group) (metricId : String) : ℚ :=
  (l.map (fun g => rawSeat g metricId)).sum

/-- The coalition the search reports for an id set:
`groups.filter((g) => currentIds.has(g.id))` where `currentIds` is the union
of the baseline ids and the added ids. -/
def coalitionOf (groups : List Group) (baselineIds : List String)
    (addedIds : List String) : List Group :=
  groups.filter (fun g => decide (g.id ∈ baselineIds) || decide (g.id ∈ addedIds))

/-- The body of the source `dfs` at a node whose current sum already wins:
discard the node when removing any single added group still wins
(not minimal), else report the current coalition.  The source tracks added
ids in the shared `currentIds` set and recovers each group through the
`idToGroup` map; since every added id is the id of the group just taken from
`remaining`, the added groups are carried directly here. -/
def winningNodeResult (operator : String) (threshold : ℚ) (metricId : String)
    (groups : List Group) (baselineIds : List String) (added : List Group)
    (currentSeats : ℚ) : List (List Group) :=
  if added.any (fun g => compareValues operator (currentSeats - rawSeat g metricId) threshold)
  then []
  else [coalitionOf groups baselineIds (added.map Group.id)]

/-- Source `dfs(index, currentSeats)`: first the win/minimality check, then
(`index >= n`) termination, then the suffix-sum prune, then the
include branch followed by the skip branch.  `rem` is `remaining.drop index`;
`added` is the list of groups included so far. -/
def dfs (operator : String) (threshold : ℚ) (metricId : String) (groups : List Group)
    (baselineIds : List String) :
    List Group → List Group → ℚ → List (List Group)
  | [], added, currentSeats =>
    if compareValues operator currentSeats threshold then
      winningNodeResult operator threshold metricId groups baselineIds added currentSeats
    else []
  | g :: rest, added, currentSeats =>
    if compareValues operator currentSeats threshold then
      winningNodeResult operator threshold metricId groups baselineIds added currentSeats
    else
      if compareValues operator (currentSeats + suffixSum (g :: rest) metricId) threshold
      then
        dfs operator threshold metricId groups baselineIds rest (added ++ [g])
            (currentSeats + rawSeat g metricId) ++
          dfs operator threshold metricId groups baselineIds rest added currentSeats
      else []

/-- Rule selection of the search:
`rules.find((r) => r.id === ruleId) || rules[0]`. -/
def selectedRule (body : Body) (ruleId : String) : Option Rule :=
  match body.rules.find? (fun r => decide (r.id = some ruleId)) with
  | some r => some r
  | none => body.rules.head?

/-- Driving-condition selection of the search: the rule's first condition
with `c.type === "sum" && c.metric === defaultMetricId`. -/
def drivingSumCond (rule : Rule) (defaultMetricId : String) : Option Condition :=
  rule.conditions.find? (fun c =>
    decide (c.type = some "sum") && decide (c.metric = some defaultMetricId))

/-- The search after metric/rule/condition selection: resolve the threshold
and operator, compute the baseline groups and seats and the remaining groups,
and run `dfs` from the root. -/
def searchCore (body : Body) (baselineIds : List String) (defaultMetricId : String)
    (sumCond : Condition) : List (List Group) :=
  let groups := body.groups
  let threshold :=
    resolveThreshold (sumCond.threshold.getD {}) body.metrics groups (some defaultMetricId)
  let operator := jsOrStr sumCond.operator ">="
  let baselineGroups := groups.filter (fun g => decide (g.id ∈ baselineIds))
  let baselineSeats := sumMetric baselineGroups defaultMetricId
  let remaining := groups.filter (fun g => decide (g.id ∉ baselineIds))
  dfs operator threshold defaultMetricId groups baselineIds remaining [] baselineSeats

/-- The search run against a given rule: select its driving sum condition
(bailing out with an empty result when none exists) and run the core search. -/
def searchWithRule (body : Body) (baselineIds : List String) (defaultMetricId : String)
    (rule : Rule) : List (List Group) :=
  match drivingSumCond rule defaultMetricId with
  | none => []
  | some sumCond => searchCore body baselineIds defaultMetricId sumCond

/-- Source `findMinimalWinningCoalitions(body, baselineIds, ruleId)`:
the guard `if (!defaultMetricId) return []` fires both when no default metric
exists and when the resolved default metric id is the falsy empty string;
after it, empty when no rule or no driving sum condition exists, otherwise
the DFS enumeration. -/
def findMinimalWinningCoalitions (body : Body) (baselineIds : List String)
    (ruleId : String) : List (List Group) :=
  match getDefaultMetricId body.metrics with
  | none => []
  | some defaultMetricId =>
    if defaultMetricId = "" then []
    else
      match selectedRule body ruleId with
      | none => []
      | some rule => searchWithRule body baselineIds defaultMetricId rule

/-- Modelled from the spec: the brute-force enumeration of all minimal
winning supersets of the baseline with respect to the selected rule's driving
sum condition ("for k at most 6 non-baseline groups, the result set equals
the brute-force enumeration of all minimal winning supersets of the
baseline").  Every subset of the non-baseline groups is enumerated; a subset
qualifies when its coalition satisfies the driving condition on `sumMetric`
and removing any single non-baseline member makes it fail. -/
def bruteForceMinimalCoalitions (body : Body) (baselineIds : List String)
    (ruleId : String) : List (List Group) :=
  match getDefaultMetricId body.metrics with
  | none => []
  | some defaultMetricId =>
    match selectedRule body ruleId with
    | none => []
    | some rule =>
      match drivingSumCond rule defaultMetricId with
      | none => []
      | some sumCond =>
        let groups := body.groups
        let threshold :=
          resolveThreshold (sumCond.threshold.getD {}) body.metrics groups
            (some defaultMetricId)
        let operator := jsOrStr sumCond.operator ">="
        let remaining := groups.filter (fun g => decide (g.id ∉ baselineIds))
        (remaining.sublists.filter (fun S =>
          let c := coalitionOf groups baselineIds (S.map Group.id)
          compareValues operator (sumMetric c defaultMetricId) threshold &&
            c.all (fun g =>
              decide (g.id ∈ baselineIds) ||
                !compareValues operator (sumMetric (c.erase g) defaultMetricId)
                  threshold))).map
          (fun S => coalitionOf groups baselineIds (S.map Group.id))

/-! ### Concrete instances

`cex…` is a three-group body with one negative metric value, used to compare
the pruned search against the brute-force enumeration.  `ex…` is the
five-group example body of the specification (seats 30/25/20/15/10, absolute
majority at half of the 100-seat total), and `ex2…` a body with two rules. -/

def cexGroupA : Group := ⟨"A", [("m", JsVal.num 2)]⟩

def cexGroupB : Group := ⟨"B", [("m", JsVal.num (-2))]⟩

def cexGroupC : Group := ⟨"C", [("m", JsVal.num 1)]⟩

def cexSumCond : Condition :=
  { type := some "sum", metric := some "m", operator := some ">=",
    threshold := some { kind := some "absolute", value := some (JsVal.num 1) } }

def cexRule : Rule := { id := some "r", conditions := [cexSumCond] }

def cexBody : Body :=
  { metrics := [("m", {})], groups := [cexGroupA, cexGroupB, cexGroupC],
    rules := [cexRule] }

def exGroupA : Group := ⟨"A", [("seats", JsVal.num 30)]⟩

def exGroupB : Group := ⟨"B", [("seats", JsVal.num 25)]⟩

def exGroupC : Group := ⟨"C", [("seats", JsVal.num 20)]⟩

def exGroupD : Group := ⟨"D", [("seats", JsVal.num 15)]⟩

def exGroupE : Group := ⟨"E", [("seats", JsVal.num 10)]⟩

def exSumCond : Condition :=
  { type := some "sum", metric := some "seats", operator := some ">=",
    threshold := some { kind := some "fractionOfTotal",
                        value := some (JsVal.num (1/2)) } }

def exMajorityRule : Rule :=
  { id := some "absolute_majority", conditions := [exSumCond] }

def exBody : Body :=
  { metrics := [("seats", {})],
    groups := [exGroupA, exGroupB, exGroupC, exGroupD, exGroupE],
    rules := [exMajorityRule] }

def ex2RuleOne : Rule := { id := some "first_rule", conditions := [exSumCond] }

def ex2RuleTwo : Rule := { id := some "second_rule", conditions := [] }

def ex2Body : Body :=
  { metrics := [("seats", {})],
    groups := [exGroupA, exGroupB],
    rules := [ex2RuleOne, ex2RuleTwo] }

def exEmptyBody : Body := {}

/-! ### Sum algebra -/

/-- The fold step of `sumMetric` adds exactly the raw seat value of the group:
a numeric value adds itself, and a missing or non-numeric value adds 0. -/
lemma sumMetric_foldl_aux (m : String) :
    ∀ (l : List Group) (a : ℚ),
      l.foldl
        (fun sum g =>
          match lookupAssoc g.metrics m with
          | some (JsVal.num v) => sum + v
          | _ => sum)
        a = a + suffixSum l m := by
  intro l
  induction l with
  | nil => intro a; simp [suffixSum]
  | cons g rest ih =>
    intro a
    simp only [List.foldl_cons, suffixSum, List.map_cons, List.sum_cons]
    rw [ih]
    have h : (match lookupAssoc g.metrics m with
        | some (JsVal.num v) => a + v
        | _ => a) = a + rawSeat g m := by
      unfold rawSeat
      cases hx : lookupAssoc g.metrics m with
      | none => simp
      | some v => cases v <;> simp
    rw [h]
    simp [suffixSum]
    ring

/-- The typed sum of `sumMetric` coincides with the sum of raw seat values:
both send a missing or non-numeric value to a contribution of 0. -/
lemma sumMetric_eq_suffixSum (l : List Group) (m : String) :
    sumMetric l m = suffixSum l m := by
  unfold sumMetric
  rw [sumMetric_foldl_aux]
  ring

lemma suffixSum_nil (m : String) : suffixSum [] m = 0 := rfl

lemma suffixSum_cons (g : Group) (l : List Group) (m : String) :
    suffixSum (g :: l) m = rawSeat g m + suffixSum l m := by
  simp [suffixSum]

lemma suffixSum_append (l₁ l₂ : List Group) (m : String) :
    suffixSum (l₁ ++ l₂) m = suffixSum l₁ m + suffixSum l₂ m := by
  simp [suffixSum]

lemma suffixSum_perm {l₁ l₂ : List Group} (m : String) (h : l₁.Perm l₂) :
    suffixSum l₁ m = suffixSum l₂ m :=
  List.Perm.sum_eq (h.map _)

lemma suffixSum_nonneg {l : List Group} {m : String}
    (h : ∀ g ∈ l, 0 ≤ rawSeat g m) : 0 ≤ suffixSum l m := by
  apply List.sum_nonneg
  intro x hx
  obtain ⟨g, hg, rfl⟩ := List.mem_map.1 hx
  exact h g hg

lemma suffixSum_le_of_sublist {S L : List Group} {m : String} (hS : S.Sublist L)
    (h : ∀ g ∈ L, 0 ≤ rawSeat g m) : suffixSum S m ≤ suffixSum L m := by
  apply List.Sublist.sum_le_sum (hS.map _)
  intro x hx
  obtain ⟨g, hg, rfl⟩ := List.mem_map.1 hx
  exact h g hg

lemma suffixSum_erase {g : Group} {l : List Group} (m : String) (hg : g ∈ l) :
    suffixSum l m = rawSeat g m + suffixSum (l.erase g) m := by
  have h := List.perm_cons_erase hg
  rw [suffixSum_perm m h, suffixSum_cons]

/-- For the monotone-increasing operators, enlarging the compared value
preserves satisfaction. -/
lemma compareValues_mono {op : String} {a b t : ℚ}
    (hop : op = ">" ∨ op = ">=") (hab : a ≤ b)
    (h : compareValues op a t = true) : compareValues op b t = true := by
  rcases hop with h1 | h1 <;> subst h1 <;> simp [compareValues] at h ⊢
  · exact lt_of_lt_of_le h hab
  · exact le_trans h hab

/-! ### DFS characterization -/

/-- Membership in the result of the winning-node handler: the node is kept
exactly when no single added group can be removed while still winning. -/
lemma mem_winningNodeResult_iff {op : String} {t : ℚ} {m : String}
    {groups : List Group} {bIds : List String} {added : List Group} {cur : ℚ}
    {c : List Group} :
    c ∈ winningNodeResult op t m groups bIds added cur ↔
      (∀ g ∈ added, compareValues op (cur - rawSeat g m) t = false) ∧
      c = coalitionOf groups bIds (added.map Group.id) := by
  unfold winningNodeResult
  by_cases h : added.any (fun g => compareValues op (cur - rawSeat g m) t) = true
  · simp only [h, if_true, List.not_mem_nil]
    obtain ⟨g, hg, hgc⟩ := List.any_eq_true.1 h
    constructor
    · intro hx; cases hx
    · rintro ⟨hall, -⟩
      rw [hall g hg] at hgc
      cases hgc
  · have h' := (Bool.not_eq_true _).mp h
    simp only [h', Bool.false_eq_true, if_false, List.mem_singleton]
    constructor
    · intro hc
      refine ⟨?_, hc⟩
      intro g hg
      have := List.any_eq_false.mp h' g hg
      exact (Bool.not_eq_true _).mp this
    · rintro ⟨-, hc⟩
      exact hc

/-- Soundness of the search: every reported coalition comes from a sublist
`S` of the remaining groups whose accumulated sum wins and for which removing
any single added-or-`S` group makes the accumulated comparison fail.  Holds
for every operator and arbitrary (possibly negative) seat values. -/
lemma dfs_sound {op : String} {t : ℚ} {m : String} {groups : List Group}
    {bIds : List String} :
    ∀ (rem added : List Group) (cur : ℚ) (c : List Group),
      c ∈ dfs op t m groups bIds rem added cur →
      ∃ S, S.Sublist rem ∧
        compareValues op (cur + suffixSum S m) t = true ∧
        (∀ g ∈ added ++ S,
          compareValues op (cur + suffixSum S m - rawSeat g m) t = false) ∧
        c = coalitionOf groups bIds ((added ++ S).map Group.id) := by
  intro rem
  induction rem with
  | nil =>
    intro added cur c hc
    simp only [dfs] at hc
    by_cases hwin : compareValues op cur t = true
    · rw [if_pos hwin] at hc
      obtain ⟨hmin, hcoal⟩ := mem_winningNodeResult_iff.1 hc
      refine ⟨[], List.Sublist.refl _, ?_, ?_, ?_⟩
      · rw [suffixSum_nil]; simpa using hwin
      · intro g hg
        rw [suffixSum_nil]
        simp only [add_zero]
        exact hmin g (by simpa using hg)
      · simpa using hcoal
    · rw [if_neg hwin] at hc
      cases hc
  | cons g rest ih =>
    intro added cur c hc
    simp only [dfs] at hc
    by_cases hwin : compareValues op cur t = true
    · rw [if_pos hwin] at hc
      obtain ⟨hmin, hcoal⟩ := mem_winningNodeResult_iff.1 hc
      refine ⟨[], List.nil_sublist _, ?_, ?_, ?_⟩
      · rw [suffixSum_nil]; simpa using hwin
      · intro x hx
        rw [suffixSum_nil]
        simp only [add_zero]
        exact hmin x (by simpa using hx)
      · simpa using hcoal
    · rw [if_neg hwin] at hc
      by_cases hprune :
          compareValues op (cur + suffixSum (g :: rest) m) t = true
      · rw [if_pos hprune] at hc
        rcases List.mem_append.1 hc with hinc | hexc
        · obtain ⟨S', hS', hwin', hmin', hcoal'⟩ :=
            ih (added ++ [g]) (cur + rawSeat g m) c hinc
          refine ⟨g :: S', List.Sublist.cons₂ g hS', ?_, ?_, ?_⟩
          · rw [suffixSum_cons]
            have : cur + (rawSeat g m + suffixSum S' m) =
                cur + rawSeat g m + suffixSum S' m := by ring
            rw [this]
            exact hwin'
          · intro x hx
            rw [suffixSum_cons]
            have : cur + (rawSeat g m + suffixSum S' m) - rawSeat x m =
                cur + rawSeat g m + suffixSum S' m - rawSeat x m := by ring
            rw [this]
            apply hmin'
            simpa [List.mem_append, or_assoc] using hx
          · rw [hcoal']
            congr 1
            simp
        · obtain ⟨S, hS, hwinS, hminS, hcoalS⟩ := ih added cur c hexc
          exact ⟨S, hS.cons g, hwinS, hminS, hcoalS⟩
      · rw [if_neg hprune] at hc
        cases hc

/-- Completeness of the search for monotone-increasing operators and
non-negative seat values: every minimal winning extension is reported. -/
lemma dfs_complete {op : String} {t : ℚ} {m : String} {groups : List Group}
    {bIds : List String} (hop : op = ">" ∨ op = ">=") :
    ∀ (rem : List Group), (∀ g ∈ rem, 0 ≤ rawSeat g m) →
    ∀ (added : List Group) (cur : ℚ) (S : List Group),
      S.Sublist rem →
      compareValues op (cur + suffixSum S m) t = true →
      (∀ g ∈ added ++ S,
        compareValues op (cur + suffixSum S m - rawSeat g m) t = false) →
      coalitionOf groups bIds ((added ++ S).map Group.id) ∈
        dfs op t m groups bIds rem added cur := by
  intro rem
  induction rem with
  | nil =>
    intro hseats added cur S hS hwin hmin
    have hSnil : S = [] := List.sublist_nil.1 hS
    subst hSnil
    rw [suffixSum_nil, add_zero] at hwin hmin
    simp only [dfs, if_pos hwin]
    rw [mem_winningNodeResult_iff]
    exact ⟨fun g hg => hmin g (by simpa using hg), by simp⟩
  | cons g rest ih =>
    intro hseats added cur S hS hwin hmin
    have hseats' : ∀ x ∈ rest, 0 ≤ rawSeat x m := fun x hx =>
      hseats x (List.mem_cons_of_mem g hx)
    have hSseats : ∀ x ∈ S, 0 ≤ rawSeat x m := fun x hx =>
      hseats x (hS.subset hx)
    by_cases hwcur : compareValues op cur t = true
    · -- at a winning node the search stops; minimality forces S = []
      have hSnil : S = [] := by
        by_contra hne
        obtain ⟨x, hx⟩ := List.exists_mem_of_ne_nil S hne
        have hxle : cur ≤ cur + suffixSum S m - rawSeat x m := by
          rw [suffixSum_erase m hx]
          have h0 : 0 ≤ suffixSum (S.erase x) m :=
            suffixSum_nonneg (fun y hy =>
              hSseats y ((S.erase_sublist x).subset hy))
          linarith
        have := compareValues_mono hop hxle hwcur
        rw [hmin x (List.mem_append_right added hx)] at this
        cases this
      subst hSnil
      rw [suffixSum_nil, add_zero] at hwin hmin
      simp only [dfs, if_pos hwcur]
      rw [mem_winningNodeResult_iff]
      exact ⟨fun y hy => hmin y (by simpa using hy), by simp⟩
    · have hwcur' : ¬ compareValues op cur t = true := hwcur
      have hprune : compareValues op (cur + suffixSum (g :: rest) m) t = true := by
        apply compareValues_mono hop _ hwin
        have := suffixSum_le_of_sublist hS hseats
        linarith
      simp only [dfs, if_neg hwcur', if_pos hprune]
      rw [List.mem_append]
      cases hS with
      | cons _ hS' =>
        right
        exact ih hseats' added cur S hS' hwin hmin
      | cons₂ _ hS' =>
        left
        rename_i S'
        have hwin' : compareValues op
            (cur + rawSeat g m + suffixSum S' m) t = true := by
          rw [suffixSum_cons] at hwin
          have : cur + rawSeat g m + suffixSum S' m =
              cur + (rawSeat g m + suffixSum S' m) := by ring
          rw [this]
          exact hwin
        have hmin' : ∀ x ∈ (added ++ [g]) ++ S',
            compareValues op
              (cur + rawSeat g m + suffixSum S' m - rawSeat x m) t = false := by
          intro x hx
          have : cur + rawSeat g m + suffixSum S' m - rawSeat x m =
              cur + suffixSum (g :: S') m - rawSeat x m := by
            rw [suffixSum_cons]; ring
          rw [this]
          apply hmin
          simpa [List.mem_append, or_assoc] using hx
        have := ih hseats' (added ++ [g]) (cur + rawSeat g m) S' hS' hwin' hmin'
        have hlist : ((added ++ [g]) ++ S').map Group.id =
            (added ++ g :: S').map Group.id := by simp
        rwa [hlist] at this

/-! ### Coalition structure under unique group ids -/

/-- With unique group ids, the coalition reported for a sublist `S` of the
non-baseline groups is a permutation of the baseline groups followed by `S`. -/
lemma coalition_perm {groups : List Group} {bIds : List String} {S : List Group}
    (hnd : (groups.map Group.id).Nodup)
    (hS : S.Sublist (groups.filter (fun g => decide (g.id ∉ bIds)))) :
    (coalitionOf groups bIds (S.map Group.id)).Perm
      ((groups.filter (fun g => decide (g.id ∈ bIds))) ++ S) := by
  have hgnd : groups.Nodup := hnd.of_map
  have hSg : S.Sublist groups := hS.trans (List.filter_sublist _)
  have hnd1 : (coalitionOf groups bIds (S.map Group.id)).Nodup :=
    (List.filter_sublist _).nodup hgnd
  have hbnd : (groups.filter (fun g => decide (g.id ∈ bIds))).Nodup :=
    (List.filter_sublist _).nodup hgnd
  have hSnd : S.Nodup := hSg.nodup hgnd
  have hdisj : (groups.filter (fun g => decide (g.id ∈ bIds))).Disjoint S := by
    intro a hab haS
    have h1 : a.id ∈ bIds := by
      have := (List.mem_filter.1 hab).2
      simpa using this
    have h2 : a.id ∉ bIds := by
      have := (List.mem_filter.1 (hS.subset haS)).2
      simpa using this
    exact h2 h1
  have hnd2 : ((groups.filter (fun g => decide (g.id ∈ bIds))) ++ S).Nodup :=
    List.nodup_append.2 ⟨hbnd, hSnd, hdisj⟩
  refine (List.perm_ext_iff_of_nodup hnd1 hnd2).mpr ?_
  intro a
  simp only [coalitionOf, List.mem_filter, List.mem_append, Bool.or_eq_true,
    decide_eq_true_eq]
  constructor
  · rintro ⟨hag, hid | hid⟩
    · exact Or.inl ⟨hag, hid⟩
    · right
      obtain ⟨s, hsS, hsid⟩ := List.mem_map.1 hid
      have hsg : s ∈ groups := hSg.subset hsS
      have : s = a := List.inj_on_of_nodup_map hnd hsg hag hsid
      rwa [← this]
  · rintro (⟨hag, hid⟩ | hsS)
    · exact ⟨hag, Or.inl hid⟩
    · exact ⟨hSg.subset hsS, Or.inr (List.mem_map_of_mem _ hsS)⟩

/-- With unique group ids, the metric sum of a reported coalition is the
baseline sum plus the raw seat sum of the added groups — the invariant the
search maintains in `currentSeats`. -/
lemma coalition_sumMetric {groups : List Group} {bIds : List String} {S : List Group}
    (m : String) (hnd : (groups.map Group.id).Nodup)
    (hS : S.Sublist (groups.filter (fun g => decide (g.id ∉ bIds)))) :
    sumMetric (coalitionOf groups bIds (S.map Group.id)) m =
      sumMetric (groups.filter (fun g => decide (g.id ∈ bIds))) m + suffixSum S m := by
  rw [sumMetric_eq_suffixSum, sumMetric_eq_suffixSum,
    suffixSum_perm m (coalition_perm hnd hS), suffixSum_append]

/-- With unique group ids, the non-baseline members of a reported coalition
are exactly the added groups. -/
lemma coalition_nonbaseline_mem {groups : List Group} {bIds : List String}
    {S : List Group} (hnd : (groups.map Group.id).Nodup)
    (hS : S.Sublist (groups.filter (fun g => decide (g.id ∉ bIds)))) {a : Group} :
    (a ∈ coalitionOf groups bIds (S.map Group.id) ∧ a.id ∉ bIds) ↔ a ∈ S := by
  have hperm := coalition_perm hnd hS
  constructor
  · rintro ⟨hac, hani⟩
    have := hperm.subset hac
    rcases List.mem_append.1 this with hb | hsS
    · exact absurd (by simpa using (List.mem_filter.1 hb).2) hani
    · exact hsS
  · intro haS
    have hani : a.id ∉ bIds := by
      have := (List.mem_filter.1 (hS.subset haS)).2
      simpa using this
    refine ⟨hperm.symm.subset (List.mem_append_right _ haS), hani⟩

/-- Removing a member subtracts its raw seat value from the metric sum. -/
lemma erase_sumMetric {c : List Group} {g : Group} (m : String) (hg : g ∈ c) :
    sumMetric (c.erase g) m = sumMetric c m - rawSeat g m := by
  rw [sumMetric_eq_suffixSum, sumMetric_eq_suffixSum, suffixSum_erase m hg]
  ring

/-- The raw seat access coincides with the typed numeric coercion of the
looked-up value. -/
lemma rawSeat_eq (g : Group) (m : String) :
    rawSeat g m = jsNumOrZero (lookupAssoc g.metrics m) := by
  unfold rawSeat jsNumOrZero
  cases hx : lookupAssoc g.metrics m with
  | none => rfl
  | some v => cases v <;> rfl

/-! ### Claim theorems -/

/-- C3: `resolveThreshold` returns `value + offset` for kind `"absolute"`,
kind `"percentage"`, an absent kind and any unknown kind (absolute
semantics); for `"fractionOfTotal"` it returns `value * total + offset`,
with the total taken for `spec.metric` when present (else the metric under
evaluation), and equal to the metric definition's precomputed total when
present (else the sum over all groups).  Concretely, a `fractionOfTotal` of
0.5 when the total is 100 resolves to 50, and to 51 with offset 1. -/
theorem resolveThreshold_spec
    (spec : ThresholdSpec) (metrics : List (String × MetricDef))
    (groups : List Group) (mid : Option String) (v o : ℚ)
    (hv : spec.value = some (JsVal.num v))
    (ho : spec.offset = some (JsVal.num o)) :
    (∀ k, spec.kind = some k → k ≠ "fractionOfTotal" →
      resolveThreshold spec metrics groups mid = v + o) ∧
    (spec.kind = none → resolveThreshold spec metrics groups mid = v + o) ∧
    (∀ mid0 d T, spec.kind = some "fractionOfTotal" → spec.metric = none →
      mid = some mid0 → lookupAssoc metrics mid0 = some d → d.total = some T →
      resolveThreshold spec metrics groups mid = v * T + o) ∧
    (∀ mid0 d, spec.kind = some "fractionOfTotal" → spec.metric = none →
      mid = some mid0 → lookupAssoc metrics mid0 = some d → d.total = none →
      resolveThreshold spec metrics groups mid = v * sumMetric groups mid0 + o) ∧
    (∀ mo d T, spec.kind = some "fractionOfTotal" → spec.metric = some mo →
      mo ≠ "" → lookupAssoc metrics mo = some d → d.total = some T →
      resolveThreshold spec metrics groups mid = v * T + o) ∧
    (∀ mo d, spec.kind = some "fractionOfTotal" → spec.metric = some mo →
      mo ≠ "" → lookupAssoc metrics mo = some d → d.total = none →
      resolveThreshold spec metrics groups mid = v * sumMetric groups mo + o) ∧
    resolveThreshold
      { kind := some "fractionOfTotal", value := some (JsVal.num (1/2)) }
      [("seats", {})]
      [⟨"X", [("seats", JsVal.num 60)]⟩, ⟨"Y", [("seats", JsVal.num 40)]⟩]
      (some "seats") = 50 ∧
    resolveThreshold
      { kind := some "fractionOfTotal", value := some (JsVal.num (1/2)),
        offset := some (JsVal.num 1) }
      [("seats", { total := some 100 })] [] (some "seats") = 51 := by
  refine ⟨?_, ?_, ?_, ?_, ?_, ?_, ?_, ?_⟩
  · intro k hk hkne
    simp only [resolveThreshold, hk, hv, ho, jsOrStr, jsNumOrZero]
    by_cases hke : k = ""
    · simp [hke]
    · simp only [if_neg hke, if_neg hkne]
      split <;> rfl
  · intro hk
    simp [resolveThreshold, hk, hv, ho, jsOrStr, jsNumOrZero]
  · intro mid0 d T hk hmet hmid hla hT
    simp [resolveThreshold, hk, hmet, hmid, hla, hT, hv, ho, jsOrStr, jsOrStrOpt,
      jsNumOrZero]
  · intro mid0 d hk hmet hmid hla hT
    simp [resolveThreshold, hk, hmet, hmid, hla, hT, hv, ho, jsOrStr, jsOrStrOpt,
      jsNumOrZero, sumMetricO]
  · intro mo d T hk hmet hmo hla hT
    simp [resolveThreshold, hk, hmet, hmo, hla, hT, hv, ho, jsOrStr, jsOrStrOpt,
      jsNumOrZero]
  · intro mo d hk hmet hmo hla hT
    simp [resolveThreshold, hk, hmet, hmo, hla, hT, hv, ho, jsOrStr, jsOrStrOpt,
      jsNumOrZero, sumMetricO]
  · simp [resolveThreshold, jsOrStr, jsOrStrOpt, jsNumOrZero, sumMetricO, sumMetric,
      lookupAssoc]
    norm_num
  · simp [resolveThreshold, jsOrStr, jsOrStrOpt, jsNumOrZero, sumMetricO, sumMetric,
      lookupAssoc]
    norm_num

/-- C4: `sumMetric` sums each group's numeric value for the metric, with a
missing or non-numeric value contributing 0; when no group holds a numeric
value for the metric the sum is 0. -/
theorem sumMetric_spec (groups : List Group) (metricId : String) :
    sumMetric groups metricId =
      (groups.map (fun g => jsNumOrZero (lookupAssoc g.metrics metricId))).sum ∧
    ((∀ g ∈ groups, ∀ q : ℚ,
        lookupAssoc g.metrics metricId ≠ some (JsVal.num q)) →
      sumMetric groups metricId = 0) := by
  constructor
  · rw [sumMetric_eq_suffixSum]
    unfold suffixSum
    simp only [rawSeat_eq]
  · intro h
    rw [sumMetric_eq_suffixSum]
    unfold suffixSum
    apply List.sum_eq_zero
    intro x hx
    obtain ⟨g, hg, rfl⟩ := List.mem_map.1 hx
    unfold rawSeat
    cases hx' : lookupAssoc g.metrics metricId with
    | none => rfl
    | some w =>
      cases w with
      | num q => exact absurd hx' (h g hg q)
      | other => rfl

/-- C5: a rule is satisfied exactly when every one of its conditions is
(logical AND), a rule with no conditions is vacuously satisfied, and
`evaluateRules` yields one entry per rule in the body's declared order. -/
theorem evaluateRules_spec (body : Body) (coalitionGroups : List Group) :
    ((evaluateRules body coalitionGroups).map Prod.fst = body.rules) ∧
    (∀ p ∈ evaluateRules body coalitionGroups,
      (p.2 = true ↔ ∀ cond ∈ p.1.conditions,
        evaluateCondition cond body coalitionGroups = true)) ∧
    (∀ p ∈ evaluateRules body coalitionGroups,
      p.1.conditions = [] → p.2 = true) := by
  refine ⟨?_, ?_, ?_⟩
  · unfold evaluateRules
    rw [List.map_map]
    exact List.map_id _
  · intro p hp
    obtain ⟨rule, hrule, rfl⟩ := List.mem_map.1 hp
    simp [List.all_eq_true]
  · intro p hp hnil
    obtain ⟨rule, hrule, rfl⟩ := List.mem_map.1 hp
    simp only at hnil ⊢
    simp [hnil]

/-- C6: an unknown condition type evaluates to `false`, an unknown operator
compares `false`, and neither disturbs the evaluation of the other rules:
`evaluateRules` still returns one entry per rule in order. -/
theorem unknown_kind_operator_fail_closed :
    (∀ (cond : Condition) (body : Body) (coal : List Group),
      cond.type ≠ some "sum" → cond.type ≠ some "countGroups" →
      evaluateCondition cond body coal = false) ∧
    (∀ (op : String) (a b : ℚ),
      op ∉ ([">", ">=", "<", "<=", "==", "=", "!="] : List String) →
      compareValues op a b = false) ∧
    (∀ (body : Body) (coal : List Group),
      (evaluateRules body coal).length = body.rules.length ∧
      (evaluateRules body coal).map Prod.fst = body.rules) := by
  refine ⟨?_, ?_, ?_⟩
  · intro cond body coal h1 h2
    simp [evaluateCondition, h1, h2]
  · intro op a b hop
    simp only [List.mem_cons, List.not_mem_nil, or_false] at hop
    push_neg at hop
    obtain ⟨h1, h2, h3, h4, h5, h6, h7⟩ := hop
    simp [compareValues, h1, h2, h3, h4, h5, h6, h7]
  · intro body coal
    refine ⟨by simp [evaluateRules], ?_⟩
    unfold evaluateRules
    rw [List.map_map]
    exact List.map_id _

/-- C7: when no rule's id matches the requested rule id, the search falls
back to the body's first declared rule and runs against it (whenever the
default metric id is truthy; a falsy one empties the result before rule
selection, per the source guard). -/
theorem unknown_ruleId_falls_back
    (body : Body) (baselineIds : List String) (ruleId : String)
    (r : Rule) (rest : List Rule)
    (hrules : body.rules = r :: rest)
    (hno : ∀ r' ∈ body.rules, r'.id ≠ some ruleId) :
    selectedRule body ruleId = some r ∧
    ∀ m, getDefaultMetricId body.metrics = some m →
      findMinimalWinningCoalitions body baselineIds ruleId =
        if m = "" then [] else searchWithRule body baselineIds m r := by
  have hfind : body.rules.find? (fun r' => decide (r'.id = some ruleId)) = none := by
    rw [List.find?_eq_none]
    intro x hx
    simp [hno x hx]
  have hsel : selectedRule body ruleId = some r := by
    unfold selectedRule
    rw [hfind, hrules]
    rfl
  refine ⟨hsel, ?_⟩
  intro m hm
  by_cases hme : m = "" <;> simp [findMinimalWinningCoalitions, hm, hsel, hme]

/-- C8: the search returns an empty sequence when the body has no default
metric, when no rule exists, or when the selected rule has no sum condition
on the default metric; in the embedding it is a total function, so it never
throws. -/
theorem search_failure_semantics (body : Body) (baselineIds : List String)
    (ruleId : String) :
    (getDefaultMetricId body.metrics = none →
      findMinimalWinningCoalitions body baselineIds ruleId = []) ∧
    (body.rules = [] →
      findMinimalWinningCoalitions body baselineIds ruleId = []) ∧
    (∀ defaultMetricId rule,
      getDefaultMetricId body.metrics = some defaultMetricId →
      selectedRule body ruleId = some rule →
      drivingSumCond rule defaultMetricId = none →
      findMinimalWinningCoalitions body baselineIds ruleId = []) := by
  refine ⟨?_, ?_, ?_⟩
  · intro hm
    simp [findMinimalWinningCoalitions, hm]
  · intro hr
    have hsel : selectedRule body ruleId = none := by simp [selectedRule, hr]
    cases hm : getDefaultMetricId body.metrics with
    | none => simp [findMinimalWinningCoalitions, hm]
    | some m => simp [findMinimalWinningCoalitions, hm, hsel]
  · intro m rule hm hsel hdc
    simp [findMinimalWinningCoalitions, hm, hsel, searchWithRule, hdc]

/-- C1: with unique group ids and numeric-or-absent metric values, every
coalition returned by the search satisfies the driving sum condition — its
metric sum compares `true` against the resolved threshold under the
condition's operator — and removing any single non-baseline member makes the
comparison fail. -/
theorem returned_coalitions_minimal_winning
    (body : Body) (baselineIds : List String) (ruleId : String)
    (defaultMetricId : String) (rule : Rule) (sumCond : Condition)
    (hm : getDefaultMetricId body.metrics = some defaultMetricId)
    (hr : selectedRule body ruleId = some rule)
    (hc : drivingSumCond rule defaultMetricId = some sumCond)
    (hnd : (body.groups.map Group.id).Nodup)
    (hnum : ∀ g ∈ body.groups, ∀ v, lookupAssoc g.metrics defaultMetricId = some v →
      ∃ q, v = JsVal.num q)
    (c : List Group)
    (hcm : c ∈ findMinimalWinningCoalitions body baselineIds ruleId) :
    compareValues (jsOrStr sumCond.operator ">=") (sumMetric c defaultMetricId)
      (resolveThreshold (sumCond.threshold.getD {}) body.metrics body.groups
        (some defaultMetricId)) = true ∧
    ∀ g ∈ c, g.id ∉ baselineIds →
      compareValues (jsOrStr sumCond.operator ">=")
        (sumMetric (c.erase g) defaultMetricId)
        (resolveThreshold (sumCond.threshold.getD {}) body.metrics body.groups
          (some defaultMetricId)) = false := by
  by_cases hme : defaultMetricId = ""
  · exfalso
    simp [findMinimalWinningCoalitions, hm, hme] at hcm
  have hcm' : c ∈ dfs (jsOrStr sumCond.operator ">=")
      (resolveThreshold (sumCond.threshold.getD {}) body.metrics body.groups
        (some defaultMetricId))
      defaultMetricId body.groups baselineIds
      (body.groups.filter (fun g => decide (g.id ∉ baselineIds))) []
      (sumMetric (body.groups.filter (fun g => decide (g.id ∈ baselineIds)))
        defaultMetricId) := by
    simpa only [findMinimalWinningCoalitions, hm, if_neg hme, hr, searchWithRule, hc,
      searchCore] using hcm
  obtain ⟨S, hS, hwin, hmin, hcoal⟩ := dfs_sound _ _ _ _ hcm'
  simp only [List.nil_append] at hmin hcoal
  subst hcoal
  constructor
  · rw [coalition_sumMetric _ hnd hS]
    exact hwin
  · intro g hg hgb
    have hgS : g ∈ S := (coalition_nonbaseline_mem hnd hS).1 ⟨hg, hgb⟩
    rw [erase_sumMetric _ hg, coalition_sumMetric _ hnd hS]
    exact hmin g hgS

/-- C9: every coalition returned by the search contains every baseline group,
and is exactly the body's groups filtered to the baseline ids together with
the ids of some added non-baseline groups. -/
theorem returned_coalitions_contain_baseline
    (body : Body) (baselineIds : List String) (ruleId : String)
    (c : List Group)
    (hcm : c ∈ findMinimalWinningCoalitions body baselineIds ruleId) :
    (∀ g ∈ body.groups, g.id ∈ baselineIds → g ∈ c) ∧
    ∃ added : List Group,
      added.Sublist (body.groups.filter (fun g => decide (g.id ∉ baselineIds))) ∧
      c = coalitionOf body.groups baselineIds (added.map Group.id) := by
  cases hm : getDefaultMetricId body.metrics with
  | none => simp [findMinimalWinningCoalitions, hm] at hcm
  | some m =>
    cases hr : selectedRule body ruleId with
    | none => simp [findMinimalWinningCoalitions, hm, hr] at hcm
    | some rule =>
      cases hc : drivingSumCond rule m with
      | none => simp [findMinimalWinningCoalitions, hm, hr, searchWithRule, hc] at hcm
      | some sumCond =>
        by_cases hme : m = ""
        · exfalso
          simp [findMinimalWinningCoalitions, hm, hme] at hcm
        have hcm' : c ∈ dfs (jsOrStr sumCond.operator ">=")
            (resolveThreshold (sumCond.threshold.getD {}) body.metrics body.groups
              (some m))
            m body.groups baselineIds
            (body.groups.filter (fun g => decide (g.id ∉ baselineIds))) []
            (sumMetric (body.groups.filter (fun g => decide (g.id ∈ baselineIds))) m) := by
          simpa only [findMinimalWinningCoalitions, hm, if_neg hme, hr, searchWithRule,
            hc, searchCore] using hcm
        obtain ⟨S, hS, -, -, hcoal⟩ := dfs_sound _ _ _ _ hcm'
        simp only [List.nil_append] at hcoal
        subst hcoal
        constructor
        · intro g hg hgid
          simp [coalitionOf, List.mem_filter, hg, hgid]
        · exact ⟨S, hS, rfl⟩

/-- C10: with numeric-or-absent metric values and unique group ids, the
accumulated sum the search maintains (baseline seats plus the raw seat sum of
the added groups, built with the `|| 0` coercion) equals `sumMetric` of the
corresponding member set at every node, so the search's win and minimality
comparisons agree with the rule evaluator's sum semantics for the same
coalition; moreover the `|| 0` coercion itself agrees with `sumMetric`'s
typed fold over the body's groups. -/
theorem accumulated_sum_agrees_with_sumMetric
    (body : Body) (baselineIds : List String) (ruleId : String)
    (defaultMetricId : String) (rule : Rule) (sumCond : Condition)
    (hm : getDefaultMetricId body.metrics = some defaultMetricId)
    (hr : selectedRule body ruleId = some rule)
    (hc : drivingSumCond rule defaultMetricId = some sumCond)
    (hnd : (body.groups.map Group.id).Nodup)
    (hnum : ∀ g ∈ body.groups, ∀ v, lookupAssoc g.metrics defaultMetricId = some v →
      ∃ q, v = JsVal.num q) :
    sumMetric body.groups defaultMetricId = suffixSum body.groups defaultMetricId ∧
    ∀ added : List Group,
      added.Sublist (body.groups.filter (fun g => decide (g.id ∉ baselineIds))) →
      sumMetric (body.groups.filter (fun g => decide (g.id ∈ baselineIds)))
          defaultMetricId + suffixSum added defaultMetricId =
        sumMetric (coalitionOf body.groups baselineIds (added.map Group.id))
          defaultMetricId ∧
      compareValues (jsOrStr sumCond.operator ">=")
          (sumMetric (body.groups.filter (fun g => decide (g.id ∈ baselineIds)))
              defaultMetricId + suffixSum added defaultMetricId)
          (resolveThreshold (sumCond.threshold.getD {}) body.metrics body.groups
            (some defaultMetricId)) =
        compareValues (jsOrStr sumCond.operator ">=")
          (sumMetric (coalitionOf body.groups baselineIds (added.map Group.id))
            defaultMetricId)
          (resolveThreshold (sumCond.threshold.getD {}) body.metrics body.groups
            (some defaultMetricId)) := by
  refine ⟨sumMetric_eq_suffixSum _ _, ?_⟩
  intro added hadd
  have key := coalition_sumMetric defaultMetricId hnd hadd
  exact ⟨key.symm, by rw [key]⟩

/-- C2 (amended): with a truthy (non-empty) default metric id, a
monotone-increasing driving operator and non-negative metric values (and
unique group ids, numeric-or-absent values and at most 6 non-baseline
groups, as the claim ranges over), the pruned depth-first search returns
exactly the brute-force enumeration of all minimal winning supersets of the
baseline. -/
theorem search_eq_bruteforce
    (body : Body) (baselineIds : List String) (ruleId : String)
    (defaultMetricId : String) (rule : Rule) (sumCond : Condition)
    (hm : getDefaultMetricId body.metrics = some defaultMetricId)
    (hne : defaultMetricId ≠ "")
    (hr : selectedRule body ruleId = some rule)
    (hc : drivingSumCond rule defaultMetricId = some sumCond)
    (hop : jsOrStr sumCond.operator ">=" = ">" ∨ jsOrStr sumCond.operator ">=" = ">=")
    (hnn : ∀ g ∈ body.groups, 0 ≤ rawSeat g defaultMetricId)
    (hnd : (body.groups.map Group.id).Nodup)
    (hnum : ∀ g ∈ body.groups, ∀ v, lookupAssoc g.metrics defaultMetricId = some v →
      ∃ q, v = JsVal.num q)
    (hk : (body.groups.filter (fun g => decide (g.id ∉ baselineIds))).length ≤ 6) :
    ∀ c, c ∈ findMinimalWinningCoalitions body baselineIds ruleId ↔
      c ∈ bruteForceMinimalCoalitions body baselineIds ruleId := by
  intro c
  have hfind : (c ∈ findMinimalWinningCoalitions body baselineIds ruleId) ↔
      c ∈ dfs (jsOrStr sumCond.operator ">=")
        (resolveThreshold (sumCond.threshold.getD {}) body.metrics body.groups
          (some defaultMetricId))
        defaultMetricId body.groups baselineIds
        (body.groups.filter (fun g => decide (g.id ∉ baselineIds))) []
        (sumMetric (body.groups.filter (fun g => decide (g.id ∈ baselineIds)))
          defaultMetricId) := by
    simp only [findMinimalWinningCoalitions, hm, if_neg hne, hr, searchWithRule, hc,
      searchCore]
  rw [hfind]
  have hseats : ∀ g ∈ body.groups.filter (fun g => decide (g.id ∉ baselineIds)),
      0 ≤ rawSeat g defaultMetricId :=
    fun g hg => hnn g ((List.filter_sublist _).subset hg)
  constructor
  · intro hcm
    obtain ⟨S, hS, hwin, hmin, hcoal⟩ := dfs_sound _ _ _ _ hcm
    simp only [List.nil_append] at hmin hcoal
    simp only [bruteForceMinimalCoalitions, hm, hr, hc]
    rw [List.mem_map]
    refine ⟨S, ?_, hcoal.symm⟩
    rw [List.mem_filter]
    refine ⟨List.mem_sublists.2 hS, ?_⟩
    rw [Bool.and_eq_true]
    constructor
    · rw [coalition_sumMetric _ hnd hS]
      exact hwin
    · rw [List.all_eq_true]
      intro g hg
      rw [Bool.or_eq_true]
      by_cases hgb : g.id ∈ baselineIds
      · left
        simpa using hgb
      · right
        have hgS : g ∈ S := (coalition_nonbaseline_mem hnd hS).1 ⟨hg, hgb⟩
        rw [Bool.not_eq_true']
        rw [erase_sumMetric _ hg, coalition_sumMetric _ hnd hS]
        exact hmin g hgS
  · intro hcb
    simp only [bruteForceMinimalCoalitions, hm, hr, hc] at hcb
    rw [List.mem_map] at hcb
    obtain ⟨S, hSf, hfc⟩ := hcb
    rw [List.mem_filter] at hSf
    obtain ⟨hSmem, hP⟩ := hSf
    have hS : S.Sublist (body.groups.filter (fun g => decide (g.id ∉ baselineIds))) :=
      List.mem_sublists.1 hSmem
    rw [Bool.and_eq_true] at hP
    obtain ⟨hPwin, hPall⟩ := hP
    rw [List.all_eq_true] at hPall
    have hwin : compareValues (jsOrStr sumCond.operator ">=")
        (sumMetric (body.groups.filter (fun g => decide (g.id ∈ baselineIds)))
            defaultMetricId + suffixSum S defaultMetricId)
        (resolveThreshold (sumCond.threshold.getD {}) body.metrics body.groups
          (some defaultMetricId)) = true := by
      rw [← coalition_sumMetric _ hnd hS]
      exact hPwin
    have hmin : ∀ g ∈ ([] : List Group) ++ S,
        compareValues (jsOrStr sumCond.operator ">=")
          (sumMetric (body.groups.filter (fun g => decide (g.id ∈ baselineIds)))
              defaultMetricId + suffixSum S defaultMetricId -
            rawSeat g defaultMetricId)
          (resolveThreshold (sumCond.threshold.getD {}) body.metrics body.groups
            (some defaultMetricId)) = false := by
      simp only [List.nil_append]
      intro g hgS
      have hgc := (coalition_nonbaseline_mem hnd hS).2 hgS
      have hga := hPall g hgc.1
      rw [Bool.or_eq_true] at hga
      rcases hga with hged | hner
      · exact absurd (by simpa using hged) hgc.2
      · rw [Bool.not_eq_true'] at hner
        rw [erase_sumMetric _ hgc.1, coalition_sumMetric _ hnd hS] at hner
        exact hner
    have hdone := @dfs_complete (jsOrStr sumCond.operator ">=")
      (resolveThreshold (sumCond.threshold.getD {}) body.metrics body.groups
        (some defaultMetricId))
      defaultMetricId body.groups baselineIds hop
      (body.groups.filter (fun g => decide (g.id ∉ baselineIds))) hseats []
      (sumMetric (body.groups.filter (fun g => decide (g.id ∈ baselineIds)))
        defaultMetricId)
      S hS hwin hmin
    simp only [List.nil_append] at hdone
    rwa [← hfc]

/-! ### Concrete evaluations -/

/-- The search on the negative-seat body: pruning discards the subtree
holding group C, leaving only the coalition of group A. -/
lemma cexBody_search_eval :
    findMinimalWinningCoalitions cexBody [] "r" = [[cexGroupA]] := by
  simp [findMinimalWinningCoalitions, cexBody, cexRule, cexSumCond, cexGroupA,
    cexGroupB, cexGroupC, getDefaultMetricId, selectedRule, drivingSumCond,
    searchWithRule, searchCore, resolveThreshold, jsOrStr, jsOrStrOpt, jsNumOrZero,
    sumMetric, sumMetricO, lookupAssoc, compareValues, dfs, winningNodeResult,
    rawSeat, suffixSum, coalitionOf]
  norm_num

/-- The brute-force enumeration on the negative-seat body finds both minimal
winning coalitions. -/
lemma cexBody_brute_eval :
    bruteForceMinimalCoalitions cexBody [] "r" = [[cexGroupA], [cexGroupC]] := by
  simp [bruteForceMinimalCoalitions, cexBody, cexRule, cexSumCond, cexGroupA,
    cexGroupB, cexGroupC, getDefaultMetricId, selectedRule, drivingSumCond,
    resolveThreshold, jsOrStr, jsOrStrOpt, jsNumOrZero, sumMetric, sumMetricO,
    lookupAssoc, compareValues, rawSeat, suffixSum, coalitionOf, List.sublists,
    List.filter_cons, List.filter_nil]
  norm_num
  simp

/-- The search on the specification's five-group example body with an empty
baseline. -/
lemma exBody_search_eval :
    findMinimalWinningCoalitions exBody [] "absolute_majority" =
      [[exGroupA, exGroupB], [exGroupA, exGroupC], [exGroupA, exGroupD, exGroupE],
       [exGroupB, exGroupC, exGroupD], [exGroupB, exGroupC, exGroupE],
       [exGroupB, exGroupD, exGroupE]] := by
  simp [findMinimalWinningCoalitions, exBody, exMajorityRule, exSumCond, exGroupA,
    exGroupB, exGroupC, exGroupD, exGroupE, getDefaultMetricId, selectedRule,
    drivingSumCond, searchWithRule, searchCore, resolveThreshold, jsOrStr,
    jsOrStrOpt, jsNumOrZero, sumMetric, sumMetricO, lookupAssoc, compareValues,
    dfs, winningNodeResult, rawSeat, suffixSum, coalitionOf]
  norm_num

/-- The search on the example body with group A as the baseline. -/
lemma exBody_searchA_eval :
    findMinimalWinningCoalitions exBody ["A"] "absolute_majority" =
      [[exGroupA, exGroupB], [exGroupA, exGroupC],
       [exGroupA, exGroupD, exGroupE]] := by
  simp [findMinimalWinningCoalitions, exBody, exMajorityRule, exSumCond, exGroupA,
    exGroupB, exGroupC, exGroupD, exGroupE, getDefaultMetricId, selectedRule,
    drivingSumCond, searchWithRule, searchCore, resolveThreshold, jsOrStr,
    jsOrStrOpt, jsNumOrZero, sumMetric, sumMetricO, lookupAssoc, compareValues,
    dfs, winningNodeResult, rawSeat, suffixSum, coalitionOf]
  norm_num

/-- Every group of the example body holds a numeric value (or none) for the
default metric. -/
lemma exBody_numeric :
    ∀ g ∈ exBody.groups, ∀ v, lookupAssoc g.metrics "seats" = some v →
      ∃ q, v = JsVal.num q := by
  intro g hg v hv
  simp [exBody] at hg
  rcases hg with rfl | rfl | rfl | rfl | rfl <;>
    simp [exGroupA, exGroupB, exGroupC, exGroupD, exGroupE, lookupAssoc] at hv <;>
    exact ⟨_, hv.symm⟩

/-- C2 counterexample: on the negative-seat body — which has at most 6
non-baseline groups — the brute-force enumeration contains the minimal
winning coalition of group C alone, but the pruned search misses it, so the
result set does not equal the brute-force enumeration. -/
theorem search_misses_minimal_coalition :
    (cexBody.groups.filter (fun g => decide (g.id ∉ ([] : List String)))).length ≤ 6 ∧
    [cexGroupC] ∈ bruteForceMinimalCoalitions cexBody [] "r" ∧
    [cexGroupC] ∉ findMinimalWinningCoalitions cexBody [] "r" := by
  refine ⟨by decide, ?_, ?_⟩
  · rw [cexBody_brute_eval]
    simp
  · rw [cexBody_search_eval]
    simp [cexGroupA, cexGroupC]

/-! ### Witnesses -/

/-- Witness for C1: the reported coalition of groups A and B in the example
body satisfies the driving condition. -/
theorem returned_coalitions_minimal_winning_witness :
    compareValues (jsOrStr exSumCond.operator ">=")
      (sumMetric [exGroupA, exGroupB] "seats")
      (resolveThreshold (exSumCond.threshold.getD {}) exBody.metrics exBody.groups
        (some "seats")) = true :=
  (returned_coalitions_minimal_winning exBody [] "absolute_majority" "seats"
    exMajorityRule exSumCond rfl rfl rfl (by decide) exBody_numeric
    [exGroupA, exGroupB] (by rw [exBody_search_eval]; simp)).1

/-- Witness for the amended C2 at the example body. -/
theorem search_eq_bruteforce_witness :
    ([exGroupA, exGroupB] ∈ findMinimalWinningCoalitions exBody [] "absolute_majority"
      ↔ [exGroupA, exGroupB] ∈
        bruteForceMinimalCoalitions exBody [] "absolute_majority") :=
  search_eq_bruteforce exBody [] "absolute_majority" "seats" exMajorityRule exSumCond
    rfl (by decide) rfl rfl (Or.inr rfl)
    (by intro g hg
        simp [exBody] at hg
        rcases hg with rfl | rfl | rfl | rfl | rfl <;>
          norm_num [exGroupA, exGroupB, exGroupC, exGroupD, exGroupE, rawSeat,
            lookupAssoc])
    (by decide) exBody_numeric (by decide) [exGroupA, exGroupB]

/-- Witness for C3: the fractionOfTotal example resolves to 50. -/
theorem resolveThreshold_spec_witness :
    resolveThreshold
      { kind := some "fractionOfTotal", value := some (JsVal.num (1/2)) }
      [("seats", {})]
      [⟨"X", [("seats", JsVal.num 60)]⟩, ⟨"Y", [("seats", JsVal.num 40)]⟩]
      (some "seats") = 50 :=
  (resolveThreshold_spec
    { value := some (JsVal.num 0), offset := some (JsVal.num 0) }
    [] [] none 0 0 rfl rfl).2.2.2.2.2.2.1

/-- Witness for C4: a group holding no value for the metric sums to 0. -/
theorem sumMetric_spec_witness :
    sumMetric [⟨"G", [("x", JsVal.other)]⟩] "seats" = 0 :=
  (sumMetric_spec [⟨"G", [("x", JsVal.other)]⟩] "seats").2
    (by intro g hg q
        simp at hg
        subst hg
        simp [lookupAssoc])

/-- Witness for C5: the rule list of the evaluation report is the body's rule
list. -/
theorem evaluateRules_spec_witness :
    (evaluateRules exBody [exGroupA]).map Prod.fst = exBody.rules :=
  (evaluateRules_spec exBody [exGroupA]).1

/-- Witness for C6: the JS strict inequality operator is not recognised and
compares false. -/
theorem unknown_kind_operator_fail_closed_witness :
    compareValues "!==" 1 2 = false :=
  unknown_kind_operator_fail_closed.2.1 "!==" 1 2 (by decide)

/-- Witness for C7: an unknown rule id on a two-rule body selects the first
declared rule. -/
theorem unknown_ruleId_falls_back_witness :
    selectedRule ex2Body "no_such_rule" = some ex2RuleOne :=
  (unknown_ruleId_falls_back ex2Body [] "no_such_rule" ex2RuleOne [ex2RuleTwo]
    rfl (by decide)).1

/-- Witness for C8: a body with no metrics yields an empty search result. -/
theorem search_failure_semantics_witness :
    findMinimalWinningCoalitions exEmptyBody [] "r" = [] :=
  (search_failure_semantics exEmptyBody [] "r").1 rfl

/-- Witness for C9: the baseline group A is a member of a coalition the
search returns for baseline A. -/
theorem returned_coalitions_contain_baseline_witness :
    exGroupA ∈ ([exGroupA, exGroupB] : List Group) :=
  (returned_coalitions_contain_baseline exBody ["A"] "absolute_majority"
    [exGroupA, exGroupB] (by rw [exBody_searchA_eval]; simp)).1
    exGroupA (by simp [exBody]) (by decide)

/-- Witness for C10: on the example body the raw-seat sum agrees with the
typed metric sum. -/
theorem accumulated_sum_agrees_with_sumMetric_witness :
    sumMetric exBody.groups "seats" = suffixSum exBody.groups "seats" :=
  (accumulated_sum_agrees_with_sumMetric exBody [] "absolute_majority" "seats"
    exMajorityRule exSumCond rfl rfl rfl (by decide) exBody_numeric).1

end Majority
